import Mathlib

/-
Verification of the image-URL helper module (src/services/githubImg.js).

The module rewrites `src` attributes of `<img>` tags in HTML text, converts
between repository-relative paths and raw-content URLs, and maintains a
process-wide cache (URL map, per-directory listing timestamps with a TTL,
and per-directory in-flight request markers) for private-repository
resolution.

Strings are modelled as `List Char` (`Cs`): every JavaScript string
operation used by the source (`startsWith`, first-occurrence `replace`,
`split`, `slice`, template concatenation, the `matchAll` regex scan)
is embedded as an executable function on `List Char`, so closed theorems
evaluate by `rfl`/`decide`.
-/

namespace GithubImg

/-- Character-list model of JavaScript strings. -/
abbrev Cs := List Char

/-- JavaScript `a.startsWith(b)`: `startsW pat s` is true when `pat` is a
prefix of `s`. -/
def startsW : Cs → Cs → Bool
  | [], _ => true
  | _ :: _, [] => false
  | c :: cs, d :: ds => if c = d then startsW cs ds else false

theorem startsW_decomp : ∀ (pat s : Cs), startsW pat s = true →
    s = pat ++ s.drop pat.length := by
  intro pat
  induction pat with
  | nil => intro s _; simp
  | cons c cs ih =>
    intro s h
    cases s with
    | nil => simp [startsW] at h
    | cons d ds =>
      simp only [startsW] at h
      by_cases hcd : c = d
      · subst hcd
        simp only [if_pos rfl] at h
        have := ih ds h
        simpa [List.drop] using congrArg (c :: ·) this
      · simp [if_neg hcd] at h

theorem startsW_append_self : ∀ (a b : Cs), startsW a (a ++ b) = true := by
  intro a
  induction a with
  | nil => intro b; rfl
  | cons c cs ih => intro b; simp [startsW, ih]

/-- First-occurrence replacement, main loop (pattern assumed non-empty by
the caller `replaceF`). -/
def replaceFirstAux (pat t : Cs) : Cs → Cs
  | [] => []
  | c :: cs =>
    if startsW pat (c :: cs) then t ++ (c :: cs).drop pat.length
    else c :: replaceFirstAux pat t cs

/-- JavaScript `s.replace(pat, t)` for string `pat`: replaces the first
occurrence of `pat` in `s` (the empty pattern matches at position 0,
yielding `t ++ s`). -/
def replaceF (s pat t : Cs) : Cs :=
  if pat = [] then t ++ s else replaceFirstAux pat t s

theorem replaceFirstAux_structure (pat t : Cs) : ∀ s : Cs,
    replaceFirstAux pat t s = s ∨
      ∃ pre post, s = pre ++ pat ++ post ∧
        replaceFirstAux pat t s = pre ++ t ++ post := by
  intro s
  induction s with
  | nil => left; rfl
  | cons c cs ih =>
    by_cases hp : startsW pat (c :: cs)
    · right
      refine ⟨[], (c :: cs).drop pat.length, ?_, ?_⟩
      · simpa using startsW_decomp pat (c :: cs) hp
      · simp [replaceFirstAux, hp]
    · rcases ih with he | ⟨pre, post, hdec, hres⟩
      · left; simp [replaceFirstAux, hp, he]
      · right
        refine ⟨c :: pre, post, by simp [hdec], ?_⟩
        simp [replaceFirstAux, hp, hres]

/-- Every replacement either leaves the string unchanged (no occurrence) or
replaces exactly one occurrence of `pat`, preserving everything around it. -/
theorem replaceF_structure (s pat t : Cs) :
    replaceF s pat t = s ∨
      ∃ pre post, s = pre ++ pat ++ post ∧
        replaceF s pat t = pre ++ t ++ post := by
  by_cases hp : pat = []
  · right
    exact ⟨[], s, by simp [hp], by simp [replaceF, hp]⟩
  · rcases replaceFirstAux_structure pat t s with he | ⟨pre, post, hdec, hres⟩
    · left; simpa [replaceF, hp] using he
    · right; exact ⟨pre, post, hdec, by simpa [replaceF, hp] using hres⟩

theorem replaceF_of_startsW (s pat t : Cs) (hne : pat ≠ [])
    (hp : startsW pat s = true) :
    replaceF s pat t = t ++ s.drop pat.length := by
  cases s with
  | nil =>
    cases pat with
    | nil => exact absurd rfl hne
    | cons c cs => simp [startsW] at hp
  | cons c cs =>
    simp [replaceF, hne, replaceFirstAux, hp]

/-- Occurrence test: `occursB pat s` is true when `pat` occurs as a
contiguous substring of `s`. -/
def occursB (pat : Cs) : Cs → Bool
  | [] => startsW pat []
  | c :: cs => startsW pat (c :: cs) || occursB pat cs

theorem replaceFirstAux_of_not_occurs (pat t : Cs) : ∀ s : Cs,
    occursB pat s = false → replaceFirstAux pat t s = s := by
  intro s
  induction s with
  | nil => intro _; rfl
  | cons c cs ih =>
    intro h
    simp only [occursB, Bool.or_eq_false_iff] at h
    simp [replaceFirstAux, h.1, ih h.2]

/-- JavaScript `path.split(sep)` for a one-character separator. -/
def splitChar : Cs → Char → List Cs
  | [], _ => [[]]
  | c :: cs, sep =>
    if c = sep then [] :: splitChar cs sep
    else
      match splitChar cs sep with
      | [] => [[c]]
      | g :: gs => (c :: g) :: gs

theorem takeWhile_eq_self_of_all {p : Char → Bool} : ∀ (s : Cs),
    s.all p = true → s.takeWhile p = s := by
  intro s
  induction s with
  | nil => intro _; rfl
  | cons c cs ih =>
    intro h
    simp only [List.all_cons, Bool.and_eq_true] at h
    simp [List.takeWhile_cons, h.1, ih h.2]

/-
Attribute matcher: embedding of
  const regex = /<img [^>]*src=(?:"([^"]+)"|'([^']+)')[^>]*>/g
  return [...html.matchAll(regex)]
Backtracking notes justifying the deterministic embedding: within one match
attempt the quantifier `[^q]+` inside a quoted value and the trailing
`[^>]*` before `>` are forced (shrinking them can never make the following
literal character match, since the run stops exactly at that character), and
the two alternation branches are distinguished by their first character.
The only real choice point is the leading `[^>]*`, which a backtracking
engine resolves greedily: the longest consumable run is tried first.
`matchAll` yields leftmost matches and resumes scanning after each match.
-/

/-- One regex match: start index, full matched text, and the two capturing
groups (the double-quoted and single-quoted source value). -/
structure RMatch where
  index : Nat
  str : Cs
  cap1 : Option Cs
  cap2 : Option Cs
deriving DecidableEq, Repr

/-- Matches `([^q]+)q` (a non-empty run of non-`q` characters closed by the
quote `q`): the greedy `+` is forced, since any shorter run is followed by a
non-`q` character. -/
def quotedAfter (q : Char) (rest : Cs) : Option (Cs × Cs) :=
  let v := rest.takeWhile (fun x => x != q)
  match rest.drop v.length with
  | d :: r3 => if d = q && !v.isEmpty then some (v, r3) else none
  | [] => none

/-- Matches `(?:"([^"]+)"|'([^']+)')` at the start of `cs`, returning the
captures and the remaining characters. -/
def matchQuoted (cs : Cs) : Option (Option Cs × Option Cs × Cs) :=
  match cs with
  | [] => none
  | c :: rest =>
    if c = '"' then
      match quotedAfter '"' rest with
      | some (v, r3) => some (some v, none, r3)
      | none => none
    else if c = '\'' then
      match quotedAfter '\'' rest with
      | some (v, r3) => some (none, some v, r3)
      | none => none
    else none

/-- Tries to match `src=(?:"([^"]+)"|'([^']+)')[^>]*>` at offset `n` of
`body`; returns the offset, captures, captured-value length, and the length
of the `[^>]*>` tail. -/
def tryAt (body : Cs) (n : Nat) : Option (Nat × Option Cs × Option Cs × Nat × Nat) :=
  let tail := body.drop n
  if startsW ("src=".data) tail then
    match matchQuoted (tail.drop 4) with
    | some (c1, c2, rest) =>
      let run := rest.takeWhile (fun x => x != '>')
      match rest.drop run.length with
      | d :: _ =>
        if d = '>' then
          some (n, c1, c2, (c1.getD []).length + (c2.getD []).length, run.length + 1)
        else none
      | [] => none
    | none => none
  else none

/-- Greedy resolution of the leading `[^>]*`: offsets are tried from the
longest consumable run down to 0. -/
def tryDesc (body : Cs) : Nat → Option (Nat × Option Cs × Option Cs × Nat × Nat)
  | 0 => tryAt body 0
  | n + 1 =>
    match tryAt body (n + 1) with
    | some r => some r
    | none => tryDesc body n

/-- Attempts a regex match anchored at the start of `cs`; returns the total
matched length and the captures. -/
def matchAt (cs : Cs) : Option (Nat × Option Cs × Option Cs) :=
  if startsW ("<img ".data) cs then
    let body := cs.drop 5
    match tryDesc body (body.takeWhile (fun x => x != '>')).length with
    | some (n, c1, c2, vlen, tl) => some (5 + n + 4 + 1 + vlen + 1 + tl, c1, c2)
    | none => none
  else none

/-- Left-to-right scan collecting all matches; `fuel` bounds the recursion
(every step consumes at least one character, so `length + 1` fuel is always
enough). -/
def matchAllFuel : Nat → Cs → Nat → List RMatch
  | 0, _, _ => []
  | _ + 1, [], _ => []
  | fuel + 1, c :: cs, i =>
    match matchAt (c :: cs) with
    | some (len, c1, c2) =>
      { index := i, str := (c :: cs).take len, cap1 := c1, cap2 := c2 }
        :: matchAllFuel fuel (cs.drop (len - 1)) (i + len)
    | none => matchAllFuel fuel cs (i + 1)

/-- Embedding of `getImgSrcs(html)`. -/
def getImgSrcs (html : Cs) : List RMatch :=
  matchAllFuel (html.length + 1) html 0

/-- JavaScript `match[1] || match[2]`: the captured source value. -/
def srcOf (m : RMatch) : Cs :=
  match m.cap1 with
  | some v => if v.isEmpty then m.cap2.getD [] else v
  | none => m.cap2.getD []

/-- JavaScript `match[1] ? '"' : "'"`: the quote style of the match. -/
def quoteOf (m : RMatch) : Char :=
  match m.cap1 with
  | some v => if v.isEmpty then '\'' else '"'
  | none => '\''

/-- The literal text `src=<q><v><q>` used as a replacement pattern. -/
def srcPat (q : Char) (v : Cs) : Cs :=
  "src=".data ++ q :: (v ++ [q])

theorem quoteOf_cases (m : RMatch) : quoteOf m = '"' ∨ quoteOf m = '\'' := by
  unfold quoteOf
  cases m.cap1 with
  | none => right; rfl
  | some v =>
    by_cases h : v.isEmpty
    · right; simp [h]
    · left; simp [h]

example : getImgSrcs ("<img src=\"a.png\">".data) =
    [{ index := 0, str := "<img src=\"a.png\">".data,
       cap1 := some ("a.png".data), cap2 := none }] := by decide

example : getImgSrcs ("<p>x</p><img src=\"a.png\">".data) =
    [{ index := 8, str := "<img src=\"a.png\">".data,
       cap1 := some ("a.png".data), cap2 := none }] := by decide

example : getImgSrcs ("<img alt=\"b\" src=\"a\" id=\"c\"><img src=\"d\">".data) =
    [{ index := 0, str := "<img alt=\"b\" src=\"a\" id=\"c\">".data,
       cap1 := some ("a".data), cap2 := none },
     { index := 28, str := "<img src=\"d\">".data,
       cap1 := some ("d".data), cap2 := none }] := by decide

example : getImgSrcs ("<img src=\"\">".data) = [] := by decide

example : getImgSrcs ("<img src=".data ++ ['\'', 'b', '\''] ++ ">".data) =
    [{ index := 0, str := "<img src=".data ++ ['\'', 'b', '\''] ++ ">".data,
       cap1 := none, cap2 := some ['b'] }] := by decide

example : getImgSrcs ("<img src=\"a\" src=\"b\">".data) =
    [{ index := 0, str := "<img src=\"a\" src=\"b\">".data,
       cap1 := some ("b".data), cap2 := none }] := by decide

/-
Rewriter functions. Each scans the input once with `getImgSrcs` and then
performs first-occurrence substitutions on the evolving HTML, exactly as the
`for`/`forEach` loops in the source do; the loops are embedded as left folds
over the match list.
-/

/-- Qualification test shared by `relativeToRawUrls`, `addPrefix` and (in
part) the prefix swappers: the source is not rooted, not `http(s)://`, and
not a data URI. -/
def qualifiesRel (src : Cs) : Bool :=
  !(startsW ("/".data) src) && !(startsW ("http://".data) src) &&
    !(startsW ("https://".data) src) && !(startsW ("data:image/".data) src)

/-- JavaScript coercion of a possibly-`undefined` argument to a string, as
performed by template literals, `startsWith` and `replace`. -/
def toJsStr : Option Cs → Cs
  | none => "undefined".data
  | some s => s

/-- The raw-content URL template
`https://raw.githubusercontent.com/{owner}/{repo}/{branch}/{path}`. -/
def rawUrlPublic (o r b p : Cs) : Cs :=
  "https://raw.githubusercontent.com/".data ++ o ++ "/".data ++ r ++ "/".data
    ++ b ++ "/".data ++ p

/-- The raw-content URL prefix for an owner/repo/branch, with trailing
slash. -/
def rawPrefix (o r b : Cs) : Cs :=
  "https://raw.githubusercontent.com/".data ++ o ++ "/".data ++ r ++ "/".data
    ++ b ++ "/".data

/-- Embedding of `getRelativeUrl(owner, repo, branch, path)`:
`path.replace(fullPrefix, '')` (first occurrence) followed by
`split('?')[0]`, executed whenever `path` starts with the generic raw host
prefix. -/
def getRelativeUrl (o r b path : Cs) : Cs :=
  if startsW ("https://raw.githubusercontent.com/".data) path then
    (replaceF path (rawPrefix o r b) []).takeWhile (fun c => c != '?')
  else path

/-- Per-source body of `rawToRelativeUrls`:
`src.replace(prefix, '').split('?')[0]`. -/
def rawSrcToRelative (o r b src : Cs) : Cs :=
  (replaceF src (rawPrefix o r b) []).takeWhile (fun c => c != '?')

/-- Loop body of `relativeToRawUrls`, with the awaited `getRawUrl` result
abstracted as `resolve src` (`none` models a `null` result; `some []` an
empty string, which is falsy and also skipped by `if (rawUrl)`). -/
def relToRawStep (resolve : Cs → Option Cs) (h : Cs) (m : RMatch) : Cs :=
  let src := srcOf m
  let q := quoteOf m
  if qualifiesRel src then
    match resolve src with
    | some u => if u.isEmpty then h else replaceF h (srcPat q src) (srcPat q u)
    | none => h
  else h

/-- Embedding of `relativeToRawUrls` with the resolver abstracted: matches
are computed once on the input, then substituted one at a time. -/
def relativeToRawUrlsW (resolve : Cs → Option Cs) (html : Cs) : Cs :=
  List.foldl (relToRawStep resolve) html (getImgSrcs html)

/-- Embedding of `relativeToRawUrls` in public mode (`isPrivate` false):
`getRawUrl` deterministically returns the raw-content URL template. -/
def relativeToRawUrlsPub (o r b html : Cs) : Cs :=
  relativeToRawUrlsW (fun src => some (rawUrlPublic o r b src)) html

/-- Loop body of `rawToRelativeUrls`. -/
def rawToRelStep (o r b : Cs) (h : Cs) (m : RMatch) : Cs :=
  let src := srcOf m
  let q := quoteOf m
  if startsW ("https://raw.githubusercontent.com/".data) src then
    replaceF h (srcPat q src) (srcPat q (rawSrcToRelative o r b src))
  else h

/-- Embedding of `rawToRelativeUrls(owner, repo, branch, html)`. -/
def rawToRelativeUrls (o r b html : Cs) : Cs :=
  List.foldl (rawToRelStep o r b) html (getImgSrcs html)

/-- Core of `swapPrefix` once all three arguments are defined. -/
def swapPrefixCs (path f t : Cs) : Cs :=
  if startsW f path && !(f == "/".data && startsW ("//".data) path) &&
      !(startsW ("http://".data) path) && !(startsW ("https://".data) path) &&
      !(startsW ("data:image/".data) path) then
    replaceF path f t
  else path

/-- Embedding of `swapPrefix(path, from, to)`; `none` models an `undefined`
argument, in which case the input `path` is returned unchanged. -/
def swapPrefix (path f t : Option Cs) : Option Cs :=
  match path, f, t with
  | some p, some f', some t' => some (swapPrefixCs p f' t')
  | _, _, _ => path

/-- Loop body of `htmlSwapPrefix`. -/
def htmlSwapStep (f t : Cs) (h : Cs) (m : RMatch) : Cs :=
  let src := srcOf m
  let q := quoteOf m
  if startsW f src && !(f == "/".data && startsW ("//".data) src) &&
      !(startsW ("http://".data) src) && !(startsW ("https://".data) src) &&
      !(startsW ("data:image/".data) src) then
    replaceF h (srcPat q src) (srcPat q (replaceF src f t))
  else h

/-- Core of `htmlSwapPrefix` once all three arguments are defined. -/
def htmlSwapPrefixCs (html f t : Cs) : Cs :=
  List.foldl (htmlSwapStep f t) html (getImgSrcs html)

/-- Embedding of `htmlSwapPrefix(html, from, to)`; with any argument
`undefined` the guard fails and `html` is returned unchanged. -/
def htmlSwapPrefix (html f t : Option Cs) : Option Cs :=
  match html, f, t with
  | some h, some f', some t' => some (htmlSwapPrefixCs h f' t')
  | _, _, _ => html

/-- Loop body of `removePrefix`; `pfx` is the already-coerced prefix
string. -/
def removePrefixStep (pfx : Cs) (h : Cs) (m : RMatch) : Cs :=
  let src := srcOf m
  let q := quoteOf m
  if startsW pfx src && !(pfx == "/".data && startsW ("//".data) src) then
    replaceF h (srcPat q src) (srcPat q (replaceF src pfx []))
  else h

/-- Core of `removePrefix` on a defined HTML string. -/
def removePrefixCs (html pfx : Cs) : Cs :=
  List.foldl (removePrefixStep pfx) html (getImgSrcs html)

/-- Embedding of `removePrefix(html, prefix)`: there is no `undefined`
guard in the source, so an `undefined` html throws (`html.matchAll` on
`undefined`, modelled by `Except.error`), and an `undefined` prefix is
coerced to the string `"undefined"` by `startsWith`/`replace`. -/
def removePrefix (html pfx : Option Cs) : Except Unit Cs :=
  match html with
  | none => .error ()
  | some h => .ok (removePrefixCs h (toJsStr pfx))

/-- Loop body of `addPrefix`. -/
def addPrefixStep (pfx : Cs) (h : Cs) (m : RMatch) : Cs :=
  let src := srcOf m
  let q := quoteOf m
  if qualifiesRel src then replaceF h (srcPat q src) (srcPat q (pfx ++ src))
  else h

/-- Core of `addPrefix` on a defined HTML string. -/
def addPrefixCs (html pfx : Cs) : Cs :=
  List.foldl (addPrefixStep pfx) html (getImgSrcs html)

/-- Embedding of `addPrefix(html, prefix)`: no `undefined` guard in the
source; an `undefined` html throws and an `undefined` prefix is coerced to
`"undefined"` by the template literal. -/
def addPrefix (html pfx : Option Cs) : Except Unit Cs :=
  match html with
  | none => .error ()
  | some h => .ok (addPrefixCs h (toJsStr pfx))

example : htmlSwapPrefix (some ("<img src=\"/old/a.png\">".data))
    (some ("/old".data)) (some ("/new".data)) =
    some ("<img src=\"/new/a.png\">".data) := by decide

example : htmlSwapPrefix (some ("<img src=\"//old/a.png\">".data))
    (some ("/".data)) (some ("/new".data)) =
    some ("<img src=\"//old/a.png\">".data) := by decide

example : addPrefix (some ("<img src=\"a.png\">".data)) none =
    .ok ("<img src=\"undefineda.png\">".data) := rfl

example : relativeToRawUrlsPub ("o".data) ("r".data) ("b".data)
    ("<img src=\"a.png\">".data) =
    "<img src=\"https://raw.githubusercontent.com/o/r/b/a.png\">".data := by decide

example : rawToRelativeUrls ("o".data) ("r".data) ("b".data)
    ("<img src=\"https://raw.githubusercontent.com/o/r/b/a.png\">".data) =
    "<img src=\"a.png\">".data := by decide

/-
Directory cache and resolver. The reactive `state` object is modelled as an
explicit record threaded through the functions; JavaScript object maps are
association lists. `getRawUrl` in private mode has exactly one suspension
point (the `await` of the shared listing promise), so it is split into the
synchronous phase before the `await` (`syncPhase`) and the resumption after
it; `getRawUrlPriv` composes the two for a call whose awaited listing
settles with the value produced by the `fetch` oracle, which stands for the
external `github.getContents` collaborator (`Except.error` models a
rejected promise, `Option` models a possibly-null resolution value).
-/

/-- JavaScript value stored as a `download_url`: a string or `null`. -/
inductive JVal where
  | jnull
  | jstr (s : Cs)
deriving DecidableEq, Repr

/-- File descriptor returned by the directory-listing collaborator. -/
structure FileD where
  path : Cs
  download_url : JVal
deriving DecidableEq, Repr

/-- Association-list lookup (JavaScript property read; absent keys give
`undefined`, modelled as `none`). -/
def lookupA {α : Type} : List (Cs × α) → Cs → Option α
  | [], _ => none
  | (k', v) :: rest, k => if k' = k then some v else lookupA rest k

/-- Association-list write (JavaScript property assignment). -/
def insertA {α : Type} : List (Cs × α) → Cs → α → List (Cs × α)
  | [], k, v => [(k, v)]
  | (k', v') :: rest, k, v =>
    if k' = k then (k, v) :: rest else (k', v') :: insertA rest k v

/-- Association-list removal (JavaScript `delete`). -/
def removeA {α : Type} : List (Cs × α) → Cs → List (Cs × α)
  | [], _ => []
  | (k', v') :: rest, k =>
    if k' = k then removeA rest k else (k', v') :: removeA rest k

theorem lookupA_insertA_self {α : Type} : ∀ (l : List (Cs × α)) (k : Cs) (v : α),
    lookupA (insertA l k v) k = some v := by
  intro l
  induction l with
  | nil => intro k v; simp [insertA, lookupA]
  | cons kv rest ih =>
    intro k v
    by_cases h : kv.1 = k
    · simp [insertA, h, lookupA]
    · simp [insertA, h, lookupA, ih]

theorem lookupA_removeA_self {α : Type} : ∀ (l : List (Cs × α)) (k : Cs),
    lookupA (removeA l k) k = none := by
  intro l
  induction l with
  | nil => intro k; rfl
  | cons kv rest ih =>
    intro k
    by_cases h : kv.1 = k
    · simp [removeA, h, ih]
    · simp [removeA, h, lookupA, ih]

/-- The module-wide `state` object: URL cache, per-directory listing
timestamps, in-flight request markers. `nextReq` generates handles for
pending listing operations and `calls` logs each invocation of the
directory-listing collaborator (by fully-qualified parent path). -/
structure JsState where
  urls : List (Cs × JVal)
  paths : List (Cs × Int)
  requests : List (Cs × Nat)
  nextReq : Nat
  calls : List Cs
deriving DecidableEq, Repr

/-- TTL for the cache, in milliseconds. -/
def ttl : Int := 10000

/-- The fully-qualified path `owner/repo/branch/path`. -/
def fullPathOf (o r b p : Cs) : Cs :=
  o ++ "/".data ++ r ++ "/".data ++ b ++ "/".data ++ p

/-- JavaScript `path.split('/').slice(0, -1).join('/')`. -/
def parentOf (p : Cs) : Cs :=
  List.intercalate ("/".data) ((splitChar p '/').dropLast)

/-- Truthy read of `state.urls[k]` as used by `if (!state.urls[fullPath])`
and `state.urls[fullPath] || null`: absent keys, `null` and the empty
string are all falsy. -/
def truthyLookup (urls : List (Cs × JVal)) (k : Cs) : Option Cs :=
  match lookupA urls k with
  | some (.jstr s) => if s.isEmpty then none else some s
  | some .jnull => none
  | none => none

/-- Truthy read of `state.paths[k]`: absent keys and the timestamp `0` are
falsy. -/
def truthyNumLookup (paths : List (Cs × Int)) (k : Cs) : Option Int :=
  match lookupA paths k with
  | some t => if t = 0 then none else some t
  | none => none

/-- Outcome of the synchronous phase of a private-mode `getRawUrl` call:
either an early return (cache hit or fresh-marker null), or the call
reaches the `await` on the pending operation `h` (having invoked the
collaborator itself iff `invoked`). -/
inductive SyncOutcome where
  | cachedHit (v : Cs)
  | retNull
  | awaiting (h : Nat) (invoked : Bool)
deriving DecidableEq, Repr

/-- Synchronous phase of private-mode `getRawUrl(owner, repo, branch, path)`
up to (and including) the check-and-set of the in-flight request marker;
`now` is the value of `Date.now()` at the TTL check. -/
def syncPhase (o r b p : Cs) (now : Int) (s : JsState) : SyncOutcome × JsState :=
  let fullPath := fullPathOf o r b p
  match truthyLookup s.urls fullPath with
  | some v => (.cachedHit v, s)
  | none =>
    let fpp := fullPathOf o r b (parentOf p)
    let s1 : JsState :=
      match truthyNumLookup s.paths fpp with
      | some t => if t < now - ttl then { s with paths := removeA s.paths fpp } else s
      | none => s
    match truthyNumLookup s1.paths fpp with
    | some _ => (.retNull, s1)
    | none =>
      match lookupA s1.requests fpp with
      | some h => (.awaiting h false, s1)
      | none =>
        (.awaiting s1.nextReq true,
          { s1 with
            requests := insertA s1.requests fpp s1.nextReq,
            nextReq := s1.nextReq + 1,
            calls := s1.calls ++ [fpp] })

/-- Embedding of `addRawUrls(owner, repo, branch, files)` acting on the
`urls` map; `none` models a falsy `files` value, which the `if (files)`
guard skips. -/
def addRawUrls (o r b : Cs) (files : Option (List FileD))
    (urls : List (Cs × JVal)) : List (Cs × JVal) :=
  match files with
  | none => urls
  | some fs =>
    List.foldl (fun u f => insertA u (fullPathOf o r b f.path) f.download_url) urls fs

/-- Private-mode `getRawUrl` for a single call whose awaited listing
settles immediately: the synchronous phase, then (when the call suspended)
the resumption with the listing result `fetch fpp`. On a rejected listing
(`Except.error`) the exception propagates: none of the statements after
the `await` run, so the request marker is left in place. On success the
URL map is populated, the request marker removed, the directory timestamp
set to `now2`, and `state.urls[fullPath] || null` returned. -/
def getRawUrlPriv (o r b p : Cs) (now : Int)
    (fetch : Cs → Except Unit (Option (List FileD))) (now2 : Int)
    (s : JsState) : Except Unit (Option Cs) × JsState :=
  match syncPhase o r b p now s with
  | (.cachedHit v, s1) => (.ok (some v), s1)
  | (.retNull, s1) => (.ok none, s1)
  | (.awaiting _ _, s1) =>
    let fullPath := fullPathOf o r b p
    let fpp := fullPathOf o r b (parentOf p)
    match fetch fpp with
    | .error e => (.error e, s1)
    | .ok files =>
      let s2 : JsState :=
        { s1 with
          urls := addRawUrls o r b files s1.urls,
          requests := removeA s1.requests fpp,
          paths := insertA s1.paths fpp now2 }
      (.ok (truthyLookup s2.urls fullPath), s2)

/-- Public-mode `getRawUrl`: the deterministic raw-content URL. -/
def getRawUrlPub (o r b p : Cs) : Cs :=
  rawUrlPublic o r b p

example :
    getRawUrlPriv ("o".data) ("r".data) ("main".data) ("docs/a.png".data) 0
      (fun _ => .ok (some [{ path := "docs/a.png".data,
                             download_url := .jstr ("https://x/a.png".data) }]))
      5 { urls := [], paths := [], requests := [], nextReq := 0, calls := [] } =
    (.ok (some ("https://x/a.png".data)),
      { urls := [("o/r/main/docs/a.png".data, .jstr ("https://x/a.png".data))],
        paths := [("o/r/main/docs".data, 5)],
        requests := [], nextReq := 1,
        calls := ["o/r/main/docs".data] }) := rfl

example :
    getRawUrlPriv ("o".data) ("r".data) ("main".data) ("docs/a.png".data) 6
      (fun _ => .error ()) 7
      { urls := [("o/r/main/docs/a.png".data, .jstr ("https://x/a.png".data))],
        paths := [("o/r/main/docs".data, 5)],
        requests := [], nextReq := 1,
        calls := ["o/r/main/docs".data] } =
    (.ok (some ("https://x/a.png".data)),
      { urls := [("o/r/main/docs/a.png".data, .jstr ("https://x/a.png".data))],
        paths := [("o/r/main/docs".data, 5)],
        requests := [], nextReq := 1,
        calls := ["o/r/main/docs".data] }) := rfl

/-
Shared lemmas about the matcher and the fold-based rewriters.
-/

/-- A single rewrite performed by any of the HTML operations: the first
occurrence of some `src=<q>v<q>` substring is replaced by `src=<q>v'<q>`
with the same quote character, everything around it preserved. -/
def SrcRewriteStep (h h' : Cs) : Prop :=
  ∃ q v v' pre post, (q = '"' ∨ q = '\'') ∧
    h = pre ++ srcPat q v ++ post ∧ h' = pre ++ srcPat q v' ++ post

/-- Step functions whose every application either keeps the HTML unchanged
or performs one `SrcRewriteStep`. -/
def IsSrcRewriter (f : Cs → RMatch → Cs) : Prop :=
  ∀ h m, f h m = h ∨ SrcRewriteStep h (f h m)

theorem srcRewrite_of_replaceF (h : Cs) (q : Char) (v v' : Cs)
    (hq : q = '"' ∨ q = '\'') :
    replaceF h (srcPat q v) (srcPat q v') = h ∨
      SrcRewriteStep h (replaceF h (srcPat q v) (srcPat q v')) := by
  rcases replaceF_structure h (srcPat q v) (srcPat q v') with he | ⟨pre, post, hdec, hres⟩
  · left; exact he
  · right; exact ⟨q, v, v', pre, post, hq, hdec, hres⟩

theorem foldl_rtg {f : Cs → RMatch → Cs} (hf : IsSrcRewriter f) :
    ∀ (ms : List RMatch) (h : Cs),
      Relation.ReflTransGen SrcRewriteStep h (List.foldl f h ms) := by
  intro ms
  induction ms with
  | nil => intro h; exact Relation.ReflTransGen.refl
  | cons m rest ih =>
    intro h
    rcases hf h m with he | hs
    · simpa [List.foldl, he] using ih (f h m)
    · exact Relation.ReflTransGen.head hs (ih (f h m))

theorem foldl_id {α : Type} {f : Cs → α → Cs} (hf : ∀ h m, f h m = h) :
    ∀ (ms : List α) (h : Cs), List.foldl f h ms = h := by
  intro ms
  induction ms with
  | nil => intro h; rfl
  | cons m rest ih => intro h; simp [List.foldl, hf, ih]

theorem relToRawStep_rewriter (resolve : Cs → Option Cs) :
    IsSrcRewriter (relToRawStep resolve) := by
  intro h m
  unfold relToRawStep
  dsimp only
  split
  · split
    · split
      · left; rfl
      · exact srcRewrite_of_replaceF h (quoteOf m) (srcOf m) _ (quoteOf_cases m)
    · left; rfl
  · left; rfl

theorem rawToRelStep_rewriter (o r b : Cs) : IsSrcRewriter (rawToRelStep o r b) := by
  intro h m
  unfold rawToRelStep
  dsimp only
  split
  · exact srcRewrite_of_replaceF h (quoteOf m) (srcOf m) _ (quoteOf_cases m)
  · left; rfl

theorem htmlSwapStep_rewriter (f t : Cs) : IsSrcRewriter (htmlSwapStep f t) := by
  intro h m
  unfold htmlSwapStep
  dsimp only
  split
  · exact srcRewrite_of_replaceF h (quoteOf m) (srcOf m) _ (quoteOf_cases m)
  · left; rfl

theorem removePrefixStep_rewriter (pfx : Cs) : IsSrcRewriter (removePrefixStep pfx) := by
  intro h m
  unfold removePrefixStep
  dsimp only
  split
  · exact srcRewrite_of_replaceF h (quoteOf m) (srcOf m) _ (quoteOf_cases m)
  · left; rfl

theorem addPrefixStep_rewriter (pfx : Cs) : IsSrcRewriter (addPrefixStep pfx) := by
  intro h m
  unfold addPrefixStep
  dsimp only
  split
  · exact srcRewrite_of_replaceF h (quoteOf m) (srcOf m) _ (quoteOf_cases m)
  · left; rfl

theorem quotedAfter_ne_nil : ∀ (q : Char) (rest v r3 : Cs),
    quotedAfter q rest = some (v, r3) → v ≠ [] := by
  intro q rest v r3 h
  unfold quotedAfter at h
  dsimp only at h
  split at h
  · split at h
    · rename_i hcond
      simp only [Option.some.injEq, Prod.mk.injEq] at h
      obtain ⟨hv, -⟩ := h
      subst hv
      simp only [Bool.and_eq_true, Bool.not_eq_true'] at hcond
      intro hnil
      rw [hnil] at hcond
      simp at hcond
    · exact absurd h (by simp)
  · exact absurd h (by simp)

/-- Capture shape of a quoted-value match: exactly one capture is present
and it is non-empty (the regex requires `[^"]+` / `[^']+`). -/
theorem matchQuoted_caps (cs : Cs) (c1 c2 : Option Cs) (rest : Cs)
    (h : matchQuoted cs = some (c1, c2, rest)) :
    ((∃ v, c1 = some v ∧ v ≠ []) ∧ c2 = none) ∨
      (c1 = none ∧ ∃ v, c2 = some v ∧ v ≠ []) := by
  unfold matchQuoted at h
  split at h
  · exact absurd h (by simp)
  · rename_i c rest0
    split at h
    · split at h
      · rename_i v r3 hq
        simp only [Option.some.injEq, Prod.mk.injEq] at h
        obtain ⟨h1, h2, -⟩ := h
        exact Or.inl ⟨⟨v, h1.symm, quotedAfter_ne_nil _ _ _ _ hq⟩, h2.symm⟩
      · exact absurd h (by simp)
    · split at h
      · split at h
        · rename_i v r3 hq
          simp only [Option.some.injEq, Prod.mk.injEq] at h
          obtain ⟨h1, h2, -⟩ := h
          exact Or.inr ⟨h1.symm, v, h2.symm, quotedAfter_ne_nil _ _ _ _ hq⟩
        · exact absurd h (by simp)
      · exact absurd h (by simp)

theorem tryAt_caps (body : Cs) (n n' : Nat) (c1 c2 : Option Cs) (vlen tl : Nat)
    (h : tryAt body n = some (n', c1, c2, vlen, tl)) :
    ((∃ v, c1 = some v ∧ v ≠ []) ∧ c2 = none) ∨
      (c1 = none ∧ ∃ v, c2 = some v ∧ v ≠ []) := by
  unfold tryAt at h
  dsimp only at h
  split at h
  · split at h
    · rename_i d1 d2 drest hq
      split at h
      · split at h
        · simp only [Option.some.injEq, Prod.mk.injEq] at h
          obtain ⟨-, h1, h2, -⟩ := h
          rw [← h1, ← h2]
          exact matchQuoted_caps _ _ _ _ hq
        · exact absurd h (by simp)
      · exact absurd h (by simp)
    · exact absurd h (by simp)
  · exact absurd h (by simp)

theorem tryDesc_caps (body : Cs) : ∀ (n n' : Nat) (c1 c2 : Option Cs) (vlen tl : Nat),
    tryDesc body n = some (n', c1, c2, vlen, tl) →
    ((∃ v, c1 = some v ∧ v ≠ []) ∧ c2 = none) ∨
      (c1 = none ∧ ∃ v, c2 = some v ∧ v ≠ []) := by
  intro n
  induction n with
  | zero => intro n' c1 c2 vlen tl h; exact tryAt_caps body 0 n' c1 c2 vlen tl h
  | succ k ih =>
    intro n' c1 c2 vlen tl h
    unfold tryDesc at h
    split at h
    · rename_i r ht
      injection h with h'
      rw [h'] at ht
      exact tryAt_caps body (k + 1) n' c1 c2 vlen tl ht
    · exact ih n' c1 c2 vlen tl h

theorem matchAt_caps (cs : Cs) (len : Nat) (c1 c2 : Option Cs)
    (h : matchAt cs = some (len, c1, c2)) :
    ((∃ v, c1 = some v ∧ v ≠ []) ∧ c2 = none) ∨
      (c1 = none ∧ ∃ v, c2 = some v ∧ v ≠ []) := by
  unfold matchAt at h
  dsimp only at h
  split at h
  · split at h
    · rename_i n d1 d2 vlen tl ht
      simp only [Option.some.injEq, Prod.mk.injEq] at h
      obtain ⟨-, h1, h2⟩ := h
      rw [← h1, ← h2]
      exact tryDesc_caps _ _ n d1 d2 vlen tl ht
    · exact absurd h (by simp)
  · exact absurd h (by simp)

theorem matchAllFuel_caps : ∀ (fuel : Nat) (cs : Cs) (i : Nat) (m : RMatch),
    m ∈ matchAllFuel fuel cs i →
    ((∃ v, m.cap1 = some v ∧ v ≠ []) ∧ m.cap2 = none) ∨
      (m.cap1 = none ∧ ∃ v, m.cap2 = some v ∧ v ≠ []) := by
  intro fuel
  induction fuel with
  | zero => intro cs i m h; exact absurd h (by simp [matchAllFuel])
  | succ k ih =>
    intro cs i m h
    cases cs with
    | nil => exact absurd h (by simp [matchAllFuel])
    | cons c rest =>
      unfold matchAllFuel at h
      cases hm : matchAt (c :: rest) with
      | some tri =>
        obtain ⟨len, c1, c2⟩ := tri
        rw [hm] at h
        rcases List.mem_cons.mp h with heq | hmem
        · subst heq
          exact matchAt_caps (c :: rest) len c1 c2 hm
        · exact ih _ _ m hmem
      | none =>
        rw [hm] at h
        exact ih _ _ m h

/-- Every match produced by `getImgSrcs` carries a non-empty source. -/
theorem getImgSrcs_src_ne_nil (html : Cs) (m : RMatch)
    (h : m ∈ getImgSrcs html) : srcOf m ≠ [] := by
  rcases matchAllFuel_caps _ html 0 m h with ⟨⟨v, hv, hvne⟩, -⟩ | ⟨h1, v, hv, hvne⟩
  · unfold srcOf
    rw [hv]
    simp [List.isEmpty_iff, hvne]
  · unfold srcOf
    rw [h1, hv]
    simpa using hvne

theorem truthyLookup_some (urls : List (Cs × JVal)) (k : Cs) (v : Cs)
    (h : truthyLookup urls k = some v) : v ≠ [] := by
  unfold truthyLookup at h
  split at h
  · rename_i s hs
    split at h
    · exact absurd h (by simp)
    · rename_i hne
      injection h with h'
      subst h'
      simpa [List.isEmpty_iff] using hne
  · exact absurd h (by simp)
  · exact absurd h (by simp)

theorem truthyNumLookup_removeA (paths : List (Cs × Int)) (k : Cs) :
    truthyNumLookup (removeA paths k) k = none := by
  unfold truthyNumLookup
  rw [lookupA_removeA_self]

/-
Claim theorems. Each claim of the specification audit is settled by exactly
one theorem below (with a witness instantiation when the theorem carries
hypotheses, and a concrete counterexample theorem when the claim as stated
fails on the code).
-/

/-- Concrete state for the C1 analysis: the empty module state. -/
def s0 : JsState :=
  { urls := [], paths := [], requests := [], nextReq := 0, calls := [] }

/-- C1: the claim states that the in-flight request marker is removed
whenever the listing settles, including rejection, so that a later call
retries with a fresh listing. The code contradicts this: `delete
state.requests[fullParentPath]` is executed only after a successful
`await`, so a rejected listing leaves the marker in place and every
subsequent call for a file under that directory joins the dead operation
instead of issuing a fresh listing. Evaluated at the failing input: a call
for `docs/a.png` on `o/r/main` whose listing rejects leaves the request
marker for `o/r/main/docs` set with exactly one collaborator invocation,
and a subsequent call awaits the same handle without invoking the
collaborator again. -/
theorem C1_reject_keeps_marker :
    (getRawUrlPriv ("o".data) ("r".data) ("main".data) ("docs/a.png".data) 0
        (fun _ => .error ()) 0 s0).1 = .error () ∧
    (getRawUrlPriv ("o".data) ("r".data) ("main".data) ("docs/a.png".data) 0
        (fun _ => .error ()) 0 s0).2.requests = [("o/r/main/docs".data, 0)] ∧
    (getRawUrlPriv ("o".data) ("r".data) ("main".data) ("docs/a.png".data) 0
        (fun _ => .error ()) 0 s0).2.calls = ["o/r/main/docs".data] ∧
    (syncPhase ("o".data) ("r".data) ("main".data) ("docs/b.png".data) 1
        (getRawUrlPriv ("o".data) ("r".data) ("main".data) ("docs/a.png".data) 0
          (fun _ => .error ()) 0 s0).2).1 = .awaiting 0 false ∧
    (syncPhase ("o".data) ("r".data) ("main".data) ("docs/b.png".data) 1
        (getRawUrlPriv ("o".data) ("r".data) ("main".data) ("docs/a.png".data) 0
          (fun _ => .error ()) 0 s0).2).2.calls = ["o/r/main/docs".data] :=
  ⟨rfl, rfl, rfl, rfl, rfl⟩

/-- Concrete state for the C2 counterexample: the requested file's URL is
cached (truthy) and the directory marker is expired. -/
def s2 : JsState :=
  { urls := [("o/r/b/d/a.png".data, .jstr ("u".data))],
    paths := [("o/r/b/d".data, 1)],
    requests := [], nextReq := 0, calls := [] }

/-- C2 counterexample: at time 20000 the marker for `o/r/b/d` (timestamp 1)
is expired, yet the call returns the cached URL immediately: the expired
marker is not discarded (it is still present with timestamp 1 afterwards)
and no invocation of the directory-listing collaborator occurs, because
`if (!state.urls[fullPath])` short-circuits before any marker handling.
This falsifies the claim that an expired marker always causes a fresh
listing call regardless of the cached entry. -/
theorem C2_cached_hit_skips_refresh :
    (getRawUrlPriv ("o".data) ("r".data) ("b".data) ("d/a.png".data) 20000
        (fun _ => .ok none) 20000 s2).1 = .ok (some ("u".data)) ∧
    (getRawUrlPriv ("o".data) ("r".data) ("b".data) ("d/a.png".data) 20000
        (fun _ => .ok none) 20000 s2).2 = s2 ∧
    lookupA s2.paths ("o/r/b/d".data) = some 1 ∧
    s2.calls = [] ∧ (1 : Int) < 20000 - ttl :=
  ⟨rfl, rfl, rfl, rfl, by decide⟩

/-- C2 as amended: when additionally the requested file's URL is NOT
(truthily) cached, an expired marker is discarded and the call proceeds to
await a listing: it invokes the collaborator itself when no request is in
flight (fresh invocation), and otherwise joins the in-flight request
without a new invocation. -/
theorem C2_expired_marker_refetch (o r b p : Cs) (now : Int) (s : JsState) (t : Int)
    (h1 : truthyLookup s.urls (fullPathOf o r b p) = none)
    (h2 : truthyNumLookup s.paths (fullPathOf o r b (parentOf p)) = some t)
    (h3 : t < now - ttl) :
    lookupA ((syncPhase o r b p now s).2).paths (fullPathOf o r b (parentOf p)) = none ∧
    (lookupA s.requests (fullPathOf o r b (parentOf p)) = none →
      (syncPhase o r b p now s).1 = .awaiting s.nextReq true ∧
      ((syncPhase o r b p now s).2).calls = s.calls ++ [fullPathOf o r b (parentOf p)]) ∧
    (∀ hdl, lookupA s.requests (fullPathOf o r b (parentOf p)) = some hdl →
      (syncPhase o r b p now s).1 = .awaiting hdl false ∧
      ((syncPhase o r b p now s).2).calls = s.calls) := by
  unfold syncPhase
  simp only [h1, h2, if_pos h3, truthyNumLookup_removeA]
  cases hr : lookupA s.requests (fullPathOf o r b (parentOf p)) with
  | none =>
    refine ⟨lookupA_removeA_self _ _, fun _ => ⟨rfl, rfl⟩, fun hdl hh => ?_⟩
    exact absurd hh (by simp)
  | some hdl =>
    refine ⟨lookupA_removeA_self _ _, fun hh => absurd hh (by simp), fun hdl' hh => ?_⟩
    injection hh with h'
    subst h'
    exact ⟨rfl, rfl⟩

/-- C2 witness: a concrete expired-marker, uncached-URL state on which the
amended theorem applies; the call discards the marker, invokes the
collaborator once and awaits handle 0. -/
theorem C2_expired_marker_refetch_w :
    lookupA ((syncPhase ("o".data) ("r".data) ("b".data) ("d/a.png".data) 20000
        { urls := [], paths := [("o/r/b/d".data, 1)], requests := [],
          nextReq := 0, calls := [] }).2).paths ("o/r/b/d".data) = none ∧
    (syncPhase ("o".data) ("r".data) ("b".data) ("d/a.png".data) 20000
        { urls := [], paths := [("o/r/b/d".data, 1)], requests := [],
          nextReq := 0, calls := [] }).1 = .awaiting 0 true ∧
    (syncPhase ("o".data) ("r".data) ("b".data) ("d/a.png".data) 20000
        { urls := [], paths := [("o/r/b/d".data, 1)], requests := [],
          nextReq := 0, calls := [] }).2.calls = ["o/r/b/d".data] := by
  have h := C2_expired_marker_refetch ("o".data) ("r".data) ("b".data)
    ("d/a.png".data) 20000
    { urls := [], paths := [("o/r/b/d".data, 1)], requests := [],
      nextReq := 0, calls := [] } 1 rfl rfl (by decide)
  exact ⟨h.1, (h.2.1 rfl).1, (h.2.1 rfl).2⟩

/-- C7: while a fresh (non-expired, truthy) Directory Listing Marker exists
for the file's parent directory, a private-mode `getRawUrl` call performs no
invocation of the directory-listing collaborator and leaves the state
completely unchanged (in particular the invocation log), returning exactly
`state.urls[fullPath] || null` — the current Cache Entry mapping when it is
a non-empty string, and `null` when no entry exists (the result does not
depend on the collaborator: it holds for every `fetch`). -/
theorem C7_fresh_marker_no_fetch (o r b p : Cs) (now : Int)
    (fetch : Cs → Except Unit (Option (List FileD))) (now2 : Int)
    (s : JsState) (t : Int)
    (h1 : truthyNumLookup s.paths (fullPathOf o r b (parentOf p)) = some t)
    (h2 : ¬(t < now - ttl)) :
    getRawUrlPriv o r b p now fetch now2 s =
      (.ok (truthyLookup s.urls (fullPathOf o r b p)), s) := by
  unfold getRawUrlPriv syncPhase
  cases hc : truthyLookup s.urls (fullPathOf o r b p) with
  | some v => simp only [hc]
  | none => simp only [hc, h1, if_neg h2]

/-- C7 witness: a fresh marker (timestamp 5, queried at time 6) and an
empty URL cache give a `null` result with the state untouched. -/
theorem C7_fresh_marker_no_fetch_w :
    getRawUrlPriv ("o".data) ("r".data) ("b".data) ("d/a.png".data) 6
      (fun _ => .error ()) 6
      { urls := [], paths := [("o/r/b/d".data, 5)], requests := [],
        nextReq := 0, calls := [] } =
    (.ok none,
      { urls := [], paths := [("o/r/b/d".data, 5)], requests := [],
        nextReq := 0, calls := [] }) :=
  C7_fresh_marker_no_fetch ("o".data) ("r".data) ("b".data) ("d/a.png".data) 6
    (fun _ => .error ()) 6
    { urls := [], paths := [("o/r/b/d".data, 5)], requests := [],
      nextReq := 0, calls := [] } 5 rfl (by decide)

/-- C8: single flight. From a state with no (truthy) cached URLs for the two
files, no marker for their shared parent directory and no in-flight request,
two logically concurrent private-mode calls reaching their synchronous
phases in sequence (which is how the single-threaded runtime executes them
when both start before either listing completes) produce exactly one
invocation of the directory-listing collaborator: the first call invokes it
and stores the pending operation under handle `s.nextReq`; the second call
performs no invocation (the call log still holds the single entry) and
awaits the very same handle. -/
theorem C8_single_flight (o r b p1 p2 : Cs) (now1 now2 : Int) (s : JsState)
    (h1 : truthyLookup s.urls (fullPathOf o r b p1) = none)
    (h2 : truthyLookup s.urls (fullPathOf o r b p2) = none)
    (hp : parentOf p1 = parentOf p2)
    (h3 : truthyNumLookup s.paths (fullPathOf o r b (parentOf p1)) = none)
    (h4 : lookupA s.requests (fullPathOf o r b (parentOf p1)) = none) :
    (syncPhase o r b p1 now1 s).1 = .awaiting s.nextReq true ∧
    ((syncPhase o r b p1 now1 s).2).calls =
      s.calls ++ [fullPathOf o r b (parentOf p1)] ∧
    (syncPhase o r b p2 now2 ((syncPhase o r b p1 now1 s).2)).1 =
      .awaiting s.nextReq false ∧
    (syncPhase o r b p2 now2 ((syncPhase o r b p1 now1 s).2)).2.calls =
      s.calls ++ [fullPathOf o r b (parentOf p1)] := by
  have hs1 : syncPhase o r b p1 now1 s =
      (.awaiting s.nextReq true,
        { s with
          requests := insertA s.requests (fullPathOf o r b (parentOf p1)) s.nextReq,
          nextReq := s.nextReq + 1,
          calls := s.calls ++ [fullPathOf o r b (parentOf p1)] }) := by
    unfold syncPhase
    simp only [h1, h3, h4]
  rw [hs1]
  refine ⟨rfl, rfl, ?_⟩
  unfold syncPhase
  simp [← hp, h2, h3, lookupA_insertA_self]

/-- C8 witness: two files of the directory `d` on the empty state; the
first call invokes the collaborator (handle 0), the second joins it. -/
theorem C8_single_flight_w :
    (syncPhase ("o".data) ("r".data) ("b".data) ("d/a.png".data) 0 s0).1 =
      .awaiting 0 true ∧
    ((syncPhase ("o".data) ("r".data) ("b".data) ("d/a.png".data) 0 s0).2).calls =
      ["o/r/b/d".data] ∧
    (syncPhase ("o".data) ("r".data) ("b".data) ("d/b.png".data) 1
      ((syncPhase ("o".data) ("r".data) ("b".data) ("d/a.png".data) 0 s0).2)).1 =
      .awaiting 0 false ∧
    (syncPhase ("o".data) ("r".data) ("b".data) ("d/b.png".data) 1
      ((syncPhase ("o".data) ("r".data) ("b".data) ("d/a.png".data) 0 s0).2)).2.calls =
      ["o/r/b/d".data] :=
  C8_single_flight ("o".data) ("r".data) ("b".data) ("d/a.png".data)
    ("d/b.png".data) 0 1 s0 rfl rfl rfl rfl rfl

theorem syncPhase_cachedHit (o r b p : Cs) (now : Int) (s : JsState) (v : Cs)
    (h : (syncPhase o r b p now s).1 = .cachedHit v) :
    truthyLookup s.urls (fullPathOf o r b p) = some v := by
  cases hc : truthyLookup s.urls (fullPathOf o r b p) with
  | some w =>
    have hw : syncPhase o r b p now s = (.cachedHit w, s) := by
      unfold syncPhase; simp only [hc]
    rw [hw] at h
    injection h with h'
    rw [h']
  | none =>
    exfalso
    unfold syncPhase at h
    simp only [hc] at h
    split at h
    · exact absurd h (by simp)
    · split at h
      · exact absurd h (by simp)
      · exact absurd h (by simp)

/-- C10: private-mode `getRawUrl` never produces the empty string. Whatever
the arguments, state and collaborator behaviour, a successful result is
never `some ""` (first conjunct): both the cache-hit path and the
post-listing path go through `state.urls[fullPath] || null`, which
normalises falsy stored values — the empty string or a `null`
`download_url` written by `addRawUrls` — to `null` (second conjunct), and
`relativeToRawUrls` leaves every match whose resolution is `null`
unmodified, so an all-`null` resolver returns the HTML unchanged (third
conjunct). -/
theorem C10_never_empty_string :
    (∀ (o r b p : Cs) (now : Int) (fetch : Cs → Except Unit (Option (List FileD)))
      (now2 : Int) (s : JsState),
        (getRawUrlPriv o r b p now fetch now2 s).1 ≠ .ok (some ([] : Cs))) ∧
    (∀ (urls : List (Cs × JVal)) (k : Cs),
      lookupA urls k = some (.jstr []) ∨ lookupA urls k = some .jnull →
        truthyLookup urls k = none) ∧
    (∀ html : Cs, relativeToRawUrlsW (fun _ => none) html = html) := by
  refine ⟨?_, ?_, ?_⟩
  · intro o r b p now fetch now2 s h
    unfold getRawUrlPriv at h
    cases hs : syncPhase o r b p now s with
    | mk out s1 =>
      rw [hs] at h
      cases out with
      | cachedHit v =>
        simp only [Except.ok.injEq, Option.some.injEq] at h
        have hv := truthyLookup_some s.urls (fullPathOf o r b p) v
          (syncPhase_cachedHit o r b p now s v (by rw [hs]))
        exact hv h
      | retNull => exact absurd h (by simp)
      | awaiting hdl inv =>
        cases hf : fetch (fullPathOf o r b (parentOf p)) with
        | error e => simp only [hf] at h; exact absurd h (by simp)
        | ok files =>
          simp only [hf, Except.ok.injEq] at h
          cases ht : truthyLookup (addRawUrls o r b files s1.urls)
              (fullPathOf o r b p) with
          | none => rw [ht] at h; exact absurd h (by simp)
          | some v =>
            rw [ht] at h
            have := truthyLookup_some _ _ _ ht
            simp only [Option.some.injEq] at h
            exact this h
  · intro urls k h
    unfold truthyLookup
    rcases h with h | h <;> simp [h]
  · intro html
    refine foldl_id ?_ (getImgSrcs html) html
    intro h m
    unfold relToRawStep
    dsimp only
    split <;> rfl

/-- C10 witness for the falsy-entry conjunct: an empty-string entry stored
under a key is read back as `null`. -/
theorem C10_never_empty_string_w :
    truthyLookup [(("k".data : Cs), JVal.jstr [])] ("k".data) = none :=
  C10_never_empty_string.2.1 [(("k".data : Cs), JVal.jstr [])] ("k".data)
    (Or.inl rfl)

/-- Test tag with an empty double-quoted `src` attribute. -/
def emptyDq : Cs := "<img src=\"\">".data

/-- Test tag with an empty single-quoted `src` attribute. -/
def emptySq : Cs := "<img src=".data ++ ['\'', '\''] ++ ">".data

/-- C9: the regex requires at least one character between the quotes, so
every match yielded by `getImgSrcs` has a non-empty source value (first
conjunct, for every HTML string); consequently an `<img>` tag whose `src`
attribute is the empty string — in either quote style — is not matched at
all, and every HTML-rewriting operation leaves such a tag unmodified for
every choice of the remaining arguments (remaining conjuncts). -/
theorem C9_nonempty_src :
    (∀ (html : Cs) (m : RMatch), m ∈ getImgSrcs html → srcOf m ≠ []) ∧
    (getImgSrcs emptyDq = [] ∧ getImgSrcs emptySq = []) ∧
    (∀ pfx, addPrefixCs emptyDq pfx = emptyDq ∧ addPrefixCs emptySq pfx = emptySq) ∧
    (∀ pfx, removePrefixCs emptyDq pfx = emptyDq ∧
      removePrefixCs emptySq pfx = emptySq) ∧
    (∀ f t, htmlSwapPrefixCs emptyDq f t = emptyDq ∧
      htmlSwapPrefixCs emptySq f t = emptySq) ∧
    (∀ resolve, relativeToRawUrlsW resolve emptyDq = emptyDq ∧
      relativeToRawUrlsW resolve emptySq = emptySq) ∧
    (∀ o r b, rawToRelativeUrls o r b emptyDq = emptyDq ∧
      rawToRelativeUrls o r b emptySq = emptySq) := by
  have hdq : getImgSrcs emptyDq = [] := by decide
  have hsq : getImgSrcs emptySq = [] := by decide
  refine ⟨getImgSrcs_src_ne_nil, ⟨hdq, hsq⟩, ?_, ?_, ?_, ?_, ?_⟩
  · intro pfx
    exact ⟨by unfold addPrefixCs; rw [hdq]; rfl, by unfold addPrefixCs; rw [hsq]; rfl⟩
  · intro pfx
    exact ⟨by unfold removePrefixCs; rw [hdq]; rfl, by unfold removePrefixCs; rw [hsq]; rfl⟩
  · intro f t
    exact ⟨by unfold htmlSwapPrefixCs; rw [hdq]; rfl, by unfold htmlSwapPrefixCs; rw [hsq]; rfl⟩
  · intro resolve
    exact ⟨by unfold relativeToRawUrlsW; rw [hdq]; rfl,
      by unfold relativeToRawUrlsW; rw [hsq]; rfl⟩
  · intro o r b
    exact ⟨by unfold rawToRelativeUrls; rw [hdq]; rfl,
      by unfold rawToRelativeUrls; rw [hsq]; rfl⟩

/-- C9 witness: the single match of `<img src="a.png">` has the non-empty
source `a.png`. -/
theorem C9_nonempty_src_w :
    srcOf { index := 0, str := ("<img src=\"a.png\">".data : Cs),
            cap1 := some ("a.png".data), cap2 := none } ≠ [] :=
  C9_nonempty_src.1 ("<img src=\"a.png\">".data)
    { index := 0, str := ("<img src=\"a.png\">".data : Cs),
      cap1 := some ("a.png".data), cap2 := none } (by decide)

theorem startsW_prefix_of_append : ∀ (a b s : Cs),
    startsW (a ++ b) s = true → startsW a s = true := by
  intro a
  induction a with
  | nil => intro b s _; rfl
  | cons c cs ih =>
    intro b s h
    cases s with
    | nil => simp [startsW] at h
    | cons d ds =>
      simp only [List.cons_append, startsW] at h ⊢
      by_cases hcd : c = d
      · rw [if_pos hcd] at h ⊢
        exact ih b ds h
      · rw [if_neg hcd] at h
        exact absurd h (by simp)

theorem rawPrefix_ne_nil (o r b : Cs) : rawPrefix o r b ≠ [] := by
  unfold rawPrefix
  cases h : "https://raw.githubusercontent.com/".data with
  | nil => exact absurd h (by decide)
  | cons c cs => simp

/-- HTML for the C3 counterexample: the text of the `<p>` element contains
the same `src="a.png"` characters as the one matched `<img>` tag. -/
def c3ex : Cs := "<p>src=\"a.png\"</p><img src=\"a.png\">".data

/-- C3 counterexample: `addPrefix` on `c3ex` changes the `<p>` element text
and leaves the matched `<img>` tag untouched, because the substitution
replaces the first textual occurrence of `src="a.png"` in the whole
document, which lies outside the (unique) matched `<img>` tag starting at
index 18. This falsifies the claim that all HTML outside matched `src`
attribute values is preserved byte-for-byte. -/
theorem C3_text_outside_img_modified :
    getImgSrcs c3ex =
      [{ index := 18, str := "<img src=\"a.png\">".data,
         cap1 := some ("a.png".data), cap2 := none }] ∧
    c3ex = "<p>src=\"a.png\"</p>".data ++ "<img src=\"a.png\">".data ∧
    addPrefixCs c3ex ("x/".data) =
      "<p>src=\"x/a.png\"</p>".data ++ "<img src=\"a.png\">".data ∧
    ("<p>src=\"x/a.png\"</p>".data : Cs) ≠ "<p>src=\"a.png\"</p>".data :=
  ⟨by decide, rfl, rfl, by decide⟩

/-- C3 as amended: every HTML-rewriting operation changes the document only
through first-occurrence replacements of substrings of the shape
`src=<q>value<q>` by substrings `src=<q>value'<q>` of the same shape and
quote style, each such replacement preserving every byte outside the one
replaced occurrence — but the occurrence replaced is the first in the whole
document and need not belong to a matched `<img>` tag, so bytes outside
matched `<img>` tags may change when the same `src=...` text occurs
earlier. The guarantee holds for `relativeToRawUrls` under every resolver
(hence in both public and private mode) and for the four other
operations. -/
theorem C3_only_src_pattern_rewrites :
    (∀ (resolve : Cs → Option Cs) (html : Cs),
      Relation.ReflTransGen SrcRewriteStep html (relativeToRawUrlsW resolve html)) ∧
    (∀ (o r b html : Cs),
      Relation.ReflTransGen SrcRewriteStep html (rawToRelativeUrls o r b html)) ∧
    (∀ (html f t : Cs),
      Relation.ReflTransGen SrcRewriteStep html (htmlSwapPrefixCs html f t)) ∧
    (∀ (html pfx : Cs),
      Relation.ReflTransGen SrcRewriteStep html (removePrefixCs html pfx)) ∧
    (∀ (html pfx : Cs),
      Relation.ReflTransGen SrcRewriteStep html (addPrefixCs html pfx)) :=
  ⟨fun resolve html => foldl_rtg (relToRawStep_rewriter resolve) (getImgSrcs html) html,
   fun o r b html => foldl_rtg (rawToRelStep_rewriter o r b) (getImgSrcs html) html,
   fun html f t => foldl_rtg (htmlSwapStep_rewriter f t) (getImgSrcs html) html,
   fun html pfx => foldl_rtg (removePrefixStep_rewriter pfx) (getImgSrcs html) html,
   fun html pfx => foldl_rtg (addPrefixStep_rewriter pfx) (getImgSrcs html) html⟩

/-- C4 counterexample: a raw-content URL of a different owner/repo/branch
(`x/y/z` instead of `o/r/b`) is not returned unchanged — the code still
drops its query string, because `split('?')[0]` runs for every path that
begins with the generic `https://raw.githubusercontent.com/` host
prefix. -/
theorem C4_foreign_raw_url_modified :
    getRelativeUrl ("o".data) ("r".data) ("b".data)
      ("https://raw.githubusercontent.com/x/y/z/f.png?v=1".data) =
      "https://raw.githubusercontent.com/x/y/z/f.png".data ∧
    ("https://raw.githubusercontent.com/x/y/z/f.png".data : Cs) ≠
      "https://raw.githubusercontent.com/x/y/z/f.png?v=1".data :=
  ⟨rfl, by decide⟩

/-- C4 as amended: paths not beginning with the generic raw host prefix are
returned unchanged; every path beginning with it has the first occurrence
of the full owner/repo/branch prefix removed and everything from the first
`?` of the result dropped. In particular, a path that begins with the full
prefix is returned with that prefix stripped and its query dropped (as the
original claim states), while a raw URL of a different owner/repo/branch —
full prefix nowhere present — still loses its query string. -/
theorem C4_strip_behavior (o r b p : Cs) :
    (startsW ("https://raw.githubusercontent.com/".data) p = false →
      getRelativeUrl o r b p = p) ∧
    (startsW ("https://raw.githubusercontent.com/".data) p = true →
      getRelativeUrl o r b p =
        (replaceF p (rawPrefix o r b) []).takeWhile (fun c => c != '?')) ∧
    (startsW (rawPrefix o r b) p = true →
      getRelativeUrl o r b p =
        (p.drop (rawPrefix o r b).length).takeWhile (fun c => c != '?')) ∧
    (startsW ("https://raw.githubusercontent.com/".data) p = true →
      occursB (rawPrefix o r b) p = false →
      getRelativeUrl o r b p = p.takeWhile (fun c => c != '?')) := by
  refine ⟨?_, ?_, ?_, ?_⟩
  · intro h
    simp [getRelativeUrl, h]
  · intro h
    simp [getRelativeUrl, h]
  · intro h
    have hg : startsW ("https://raw.githubusercontent.com/".data) p = true := by
      have : rawPrefix o r b =
          "https://raw.githubusercontent.com/".data ++
            (o ++ "/".data ++ r ++ "/".data ++ b ++ "/".data) := by
        simp [rawPrefix, List.append_assoc]
      exact startsW_prefix_of_append _ _ p (by rw [← this]; exact h)
    rw [show getRelativeUrl o r b p =
        (replaceF p (rawPrefix o r b) []).takeWhile (fun c => c != '?') by
      simp [getRelativeUrl, hg]]
    rw [replaceF_of_startsW p (rawPrefix o r b) [] (rawPrefix_ne_nil o r b) h]
    rfl
  · intro h hocc
    have : replaceF p (rawPrefix o r b) [] = p := by
      unfold replaceF
      rw [if_neg (rawPrefix_ne_nil o r b)]
      exact replaceFirstAux_of_not_occurs _ _ p hocc
    simp [getRelativeUrl, h, this]

/-- C4 witness: with the full prefix at the start, the suffix comes back
with its query string dropped. -/
theorem C4_strip_behavior_w :
    getRelativeUrl ("o".data) ("r".data) ("b".data)
      ("https://raw.githubusercontent.com/o/r/b/f.png?v=1".data) =
      "f.png".data :=
  (C4_strip_behavior ("o".data) ("r".data) ("b".data)
    ("https://raw.githubusercontent.com/o/r/b/f.png?v=1".data)).2.2.1 (by decide)

/-- C5 counterexample: `addPrefix` with an `undefined` prefix is not a
no-op: the prefix is coerced to the string `undefined` and prepended to the
qualifying source. -/
theorem C5_addPrefix_undefined_not_noop :
    addPrefix (some ("<img src=\"a.png\">".data)) none =
      .ok ("<img src=\"undefineda.png\">".data) ∧
    ("<img src=\"undefineda.png\">".data : Cs) ≠ "<img src=\"a.png\">".data :=
  ⟨rfl, by decide⟩

/-- C5 as amended: only `swapPrefix` and `htmlSwapPrefix` guard against
`undefined` arguments and return their input unchanged; `removePrefix` and
`addPrefix` have no such guard — an `undefined` html makes them throw, and
an `undefined` prefix is coerced to the string `undefined`, which
`addPrefix` prepends to qualifying sources and `removePrefix` strips from
sources that start with it. -/
theorem C5_undefined_handling :
    (∀ path f t : Option Cs, path = none ∨ f = none ∨ t = none →
      swapPrefix path f t = path) ∧
    (∀ html f t : Option Cs, html = none ∨ f = none ∨ t = none →
      htmlSwapPrefix html f t = html) ∧
    (∀ pfx : Option Cs, removePrefix none pfx = .error ()) ∧
    (∀ pfx : Option Cs, addPrefix none pfx = .error ()) ∧
    addPrefix (some ("<img src=\"b\">".data)) none =
      .ok ("<img src=\"undefinedb\">".data) ∧
    removePrefix (some ("<img src=\"undefinedb\">".data)) none =
      .ok ("<img src=\"b\">".data) := by
  refine ⟨?_, ?_, fun _ => rfl, fun _ => rfl, rfl, rfl⟩
  · intro path f t h
    cases path with
    | none => rfl
    | some p =>
      cases f with
      | none => rfl
      | some f' =>
        cases t with
        | none => rfl
        | some t' =>
          exfalso
          rcases h with h | h | h <;> exact absurd h (by simp)
  · intro html f t h
    cases html with
    | none => rfl
    | some p =>
      cases f with
      | none => rfl
      | some f' =>
        cases t with
        | none => rfl
        | some t' =>
          exfalso
          rcases h with h | h | h <;> exact absurd h (by simp)

/-- C5 witness: `swapPrefix` with an `undefined` `to` argument returns the
path unchanged. -/
theorem C5_undefined_handling_w :
    swapPrefix (some ("a.png".data)) (some ("a".data)) none =
      some ("a.png".data) :=
  C5_undefined_handling.1 (some ("a.png".data)) (some ("a".data)) none
    (Or.inr (Or.inr rfl))

/-- HTML for the C6 counterexample: plain text containing `src="v"` before
two `<img>` tags with that same source value. -/
def c6html : Cs := "src=\"v\" <img src=\"v\"><img src=\"v\">".data

/-- C6 counterexample: the matched sources of `c6html` are `v`, `v` — both
non-absolute and query-free, satisfying the claim's hypotheses — yet after
`relativeToRawUrls` (public mode) followed by `rawToRelativeUrls` with the
same `o/r/b`, the first `<img>` tag still carries the raw URL: both
substitution passes hit the leading text occurrence first, so the final
matched sources are the raw URL and `v`, not the original `v`, `v`. -/
theorem C6_round_trip_fails :
    (getImgSrcs c6html).map srcOf = [['v'], ['v']] ∧
    qualifiesRel ['v'] = true ∧
    (['v'] : Cs).all (fun c => c != '?') = true ∧
    rawToRelativeUrls ("o".data) ("r".data) ("b".data)
      (relativeToRawUrlsPub ("o".data) ("r".data) ("b".data) c6html) =
      ("src=\"v\" <img src=\"https://raw.githubusercontent.com/o/r/b/v\"><img src=\"v\">".data) ∧
    (getImgSrcs (rawToRelativeUrls ("o".data) ("r".data) ("b".data)
      (relativeToRawUrlsPub ("o".data) ("r".data) ("b".data) c6html))).map srcOf =
      ["https://raw.githubusercontent.com/o/r/b/v".data, ['v']] ∧
    ("https://raw.githubusercontent.com/o/r/b/v".data : Cs) ≠ ['v'] :=
  ⟨by decide, by decide, by decide, rfl, by decide, by decide⟩

/-- C6 as amended: the round trip holds at the level of each substituted
value — for every non-absolute, query-free source value, the public-mode
raw URL construction followed by the per-source stripping performed by
`rawToRelativeUrls` returns the original value — and at the HTML level for
documents whose `src=...` text occurs only in the matched attribute (shown
for a single plain `<img>` tag); full-document restoration can fail when
the same `src=...` text also occurs outside matched `<img>` src
attributes. -/
theorem C6_value_round_trip :
    (∀ o r b v : Cs, qualifiesRel v = true → v.all (fun c => c != '?') = true →
      rawSrcToRelative o r b (rawUrlPublic o r b v) = v) ∧
    rawToRelativeUrls ("o".data) ("r".data) ("b".data)
      (relativeToRawUrlsPub ("o".data) ("r".data) ("b".data)
        ("<img src=\"a.png\">".data)) = "<img src=\"a.png\">".data := by
  refine ⟨?_, rfl⟩
  intro o r b v _ hq
  have hsplit : rawUrlPublic o r b v = rawPrefix o r b ++ v := by
    simp [rawUrlPublic, rawPrefix, List.append_assoc]
  unfold rawSrcToRelative
  rw [hsplit,
    replaceF_of_startsW _ _ [] (rawPrefix_ne_nil o r b)
      (startsW_append_self (rawPrefix o r b) v),
    List.nil_append, List.drop_left]
  exact takeWhile_eq_self_of_all v hq

/-- C6 witness: the value `a.png` survives the public-mode round trip. -/
theorem C6_value_round_trip_w :
    rawSrcToRelative ("o".data) ("r".data) ("b".data)
      (rawUrlPublic ("o".data) ("r".data) ("b".data) ("a.png".data)) =
      "a.png".data :=
  C6_value_round_trip.1 ("o".data) ("r".data) ("b".data) ("a.png".data)
    (by decide) (by decide)

end GithubImg
